import Mathlib

/-!
Shallow embedding of `src/scripts/snapgene_features_parse.py`.

The script defines two functions:

* `read_features` (lines 12-47): changes the working directory to
  `../assets/snapgene`, walks the tree for candidate files, filters out
  paths starting with `./.DS` or `./features`, and for each remaining
  file opens it (outside the `try`), then inside a bare `try/except`
  calls `dgparse.snapgene.parse`, extracts `name` (UTF-8 encoded and
  stripped) and `pattern.bases` from every returned record, and inserts
  `features[name] = seq` whenever `len(seq) > 1`.  Any exception raised
  inside the `try` appends the file path to `failures` and continues.
* `write_features` (lines 50-58): calls `read_features` and writes each
  mapping entry as `name<TAB>seq<NEWLINE>` to `features.tsv`, with no
  exception handler.

Python 2 strings are modelled as `List Char` (`Str`).  The external
decoder (`dgparse`) and the OS are oracles: each walked file comes with a
`FileContent` describing what happens when the script opens and decodes
it, and exception classes are modelled by `PyExc`.  Exception propagation
is modelled with `Except`.
-/

set_option autoImplicit false

namespace Snapgene

/-- Python 2 `str` modelled as a list of characters. -/
abbrev Str := List Char

/-- Python exception classes that matter to the script: `IOError`
(raised by the OS on a failed open/read/write), the decoder's decode
error, and anything else (`KeyError`, `UnicodeEncodeError`, ...). -/
inductive PyExc where
  | ioError
  | decodeError
  | otherExc
  deriving DecidableEq, Repr

/-- Outcome of extracting one record of `output["dnafeatures"]` in the
loop body (lines 35-41): either field access raises some exception, or
it yields the raw `name` string and the `pattern.bases` sequence. -/
inductive RecordOutcome where
  | extractError (e : PyExc)
  | record (name : Str) (bases : Str)
  deriving DecidableEq, Repr

/-- What the OS and the decoder do for one walked file: `openError`
models an `IOError` raised by `open(file, "rb")` on line 32, which sits
outside the `try`; `tryExc e` models an exception `e` raised inside the
`try` before any record is produced (a decode error from
`dgparse.snapgene.parse`, or an `IOError` raised while the parser reads
from the handle); `parsed recs` models a successful parse whose record
list is processed one by one. -/
inductive FileContent where
  | openError
  | tryExc (e : PyExc)
  | parsed (records : List RecordOutcome)
  deriving DecidableEq, Repr

/-- Errors that escape the script and terminate the run. -/
inductive RunError where
  | inputOpen (path : Str)
  | outputWrite
  deriving DecidableEq, Repr

/-- Whitespace characters stripped by Python 2 `str.strip()`. -/
def isPySpace (c : Char) : Bool :=
  c = ' ' || c = '\t' || c = '\n' || c = '\r' || c = '\x0b' || c = '\x0c'

/-- Python 2 `str.strip()`: drop leading and trailing whitespace
(line 38: `dna_feature["name"].encode("utf-8").strip()`). -/
def pyStrip (s : Str) : Str :=
  ((s.dropWhile isPySpace).reverse.dropWhile isPySpace).reverse

/-- The feature dictionary: an association list with unique keys, in
insertion order.  Models the Python `dict` built on lines 29-41. -/
abbrev Dict := List (Str × Str)

/-- Python `features[name] = seq`: overwrite the value at an existing
key, or append a new binding. -/
def dictInsert (m : Dict) (k v : Str) : Dict :=
  if m.any (fun p => p.1 = k) then
    m.map (fun p => if p.1 = k then (k, v) else p)
  else m ++ [(k, v)]

/-- Python `features[name]` lookup (value of the first binding of `k`). -/
def dictGet (m : Dict) (k : Str) : Option Str :=
  (m.find? (fun p => p.1 = k)).map (fun p => p.2)

/-- The record loop of lines 35-41: process the record outcomes in
order; a `record` inserts `features[pyStrip name] = bases` when
`bases.length > 1`; an `extractError` aborts the loop, keeping the
insertions made so far, and reports that an exception was raised
(second component `true`). -/
def insertRecords (features : Dict) : List RecordOutcome → Dict × Bool
  | [] => (features, false)
  | RecordOutcome.extractError _ :: _ => (features, true)
  | RecordOutcome.record name bases :: rest =>
      insertRecords
        (if bases.length > 1 then dictInsert features (pyStrip name) bases
         else features) rest

/-- One iteration of the file loop (lines 30-45) over the accumulator
`(features, failures)`: an open failure propagates (it is outside the
`try`); an exception inside the `try` is caught by the bare `except:`
and appends the path to `failures`; a parsed file runs the record loop,
appending the path to `failures` exactly when the loop raised. -/
def processFile (st : Dict × List Str) (file : Str × FileContent) :
    Except RunError (Dict × List Str) :=
  match file.2 with
  | FileContent.openError => Except.error (RunError.inputOpen file.1)
  | FileContent.tryExc _ => Except.ok (st.1, st.2 ++ [file.1])
  | FileContent.parsed recs =>
      match insertRecords st.1 recs with
      | (feats, true) => Except.ok (feats, st.2 ++ [file.1])
      | (feats, false) => Except.ok (feats, st.2)

/-- The file loop itself: run `processFile` over the files in
enumeration order, propagating the first uncaught exception. -/
def runFiles (st : Dict × List Str) :
    List (Str × FileContent) → Except RunError (Dict × List Str)
  | [] => Except.ok st
  | f :: rest =>
      match processFile st f with
      | Except.error e => Except.error e
      | Except.ok st' => runFiles st' rest

/-- The filter of lines 21-25: keep `f` unless it starts with `./.DS`
or `./features`. -/
def keepFile (f : Str) : Bool :=
  !(("./.DS".data).isPrefixOf f || ("./features".data).isPrefixOf f)

/-- The file enumerator (lines 20-25) on the path level: `os.walk`
produces the relative path of every regular file under the root (each
of the form `./...`), and the comprehension keeps those passing
`keepFile`.  The result is a Python list: a finite, restartable
sequence. -/
def featFilter (walked : List Str) : List Str :=
  walked.filter keepFile

/-- `read_features` (lines 12-47) over a walk oracle: `fs` lists, in
walk order, every regular file under `../assets/snapgene` paired with
what opening and decoding it does.  Returns the feature dictionary and
the failure list, or the uncaught exception that terminated the run. -/
def read_features (fs : List (Str × FileContent)) :
    Except RunError (Dict × List Str) :=
  runFiles ([], []) (fs.filter (fun f => keepFile f.1))

/-- One output line of `write_features` (line 58):
`name + "\t" + seq + "\n"`. -/
def tsvLine (p : Str × Str) : Str :=
  p.1 ++ '\t' :: (p.2 ++ ['\n'])

/-- The full text written to `features.tsv` by the loop on lines 57-58,
iterating the dictionary in its stored order. -/
def tsvOutput (features : Dict) : Str :=
  (features.map tsvLine).flatten

/-- `write_features` (lines 50-58): run `read_features`, then write the
TSV text.  `wfail` is the OS oracle for the unguarded output phase: when
`true`, `open("features.tsv", "w")` or a `write` raises an `IOError`,
and with no handler in scope it propagates. -/
def write_features (fs : List (Str × FileContent)) (wfail : Bool) :
    Except RunError Str :=
  match read_features fs with
  | Except.error e => Except.error e
  | Except.ok (features, _failures) =>
      if wfail then Except.error RunError.outputWrite
      else Except.ok (tsvOutput features)

/-- Is this record outcome an exception during field extraction? -/
def isExtract : RecordOutcome → Bool
  | RecordOutcome.extractError _ => true
  | RecordOutcome.record _ _ => false

/-- Does this file content raise an exception that the bare `except:`
catches (and hence lands the path in `failures`)?  An open error never
reaches the `try`. -/
def fileFails : FileContent → Bool
  | FileContent.openError => false
  | FileContent.tryExc _ => true
  | FileContent.parsed recs => recs.any isExtract

/-- Does this file content raise an uncaught `IOError` at `open`? -/
def isOpenErr : FileContent → Bool
  | FileContent.openError => true
  | _ => false

/-- The failure paths a run over `fs` accumulates: the paths of the
enumerated files whose decode raised, in order. -/
def failurePaths (fs : List (Str × FileContent)) : List Str :=
  (((fs.filter (fun f => keepFile f.1)).filter
      (fun f => fileFails f.2)).map (fun f => f.1))

/-- Directory paths as component lists, for the working-directory
effect. -/
abbrev DirPath := List Str

/-- Resolve one component of a relative path against a working
directory: `..` drops the last component, anything else descends. -/
def chdirStep (cwd : DirPath) (comp : Str) : DirPath :=
  if comp = "..".data then cwd.dropLast else cwd ++ [comp]

/-- The argument of the `os.chdir` on line 19:
`os.path.join("..", "assets", "snapgene")`. -/
def snapgeneRel : List Str :=
  ["..".data, "assets".data, "snapgene".data]

/-- The working directory after the `os.chdir` on line 19, which no
later statement of the script changes back. -/
def read_features_cwd (cwd : DirPath) : DirPath :=
  snapgeneRel.foldl chdirStep cwd

/-- The absolute location of the `features.tsv` opened on line 56: the
relative name resolves against the working directory left behind by
`read_features`. -/
def write_features_outPath (cwd : DirPath) : DirPath :=
  read_features_cwd cwd ++ ["features.tsv".data]

/-! ## Re-splitting the TSV output

The spec's round-trip property re-splits the written text on newline
and then on tab.  `splitOnChar` is the usual split: `n` occurrences of
the separator yield `n + 1` chunks. -/

/-- Split accumulator: the chunk before the first separator, and the
chunks after it. -/
def splitOnCharAux (c : Char) : Str → Str × List Str
  | [] => ([], [])
  | a :: rest =>
      let r := splitOnCharAux c rest
      if a = c then ([], r.1 :: r.2) else (a :: r.1, r.2)

/-- Split a string on a separator character. -/
def splitOnChar (c : Char) (l : Str) : List Str :=
  (splitOnCharAux c l).1 :: (splitOnCharAux c l).2

/-- The spec-side re-split of one output line on the tab character:
exactly two fields give back a (name, sequence) pair. -/
def parseLine (ln : Str) : Option (Str × Str) :=
  match splitOnChar '\t' ln with
  | [n, s] => some (n, s)
  | _ => none

/-- The spec-side re-split of the whole output: split on newline, keep
the non-empty lines, and split each on tab into a pair. -/
def parseTsv (out : Str) : Option (List (Str × Str)) :=
  ((splitOnChar '\n' out).filter (fun ln => !ln.isEmpty)).mapM parseLine

/-- The feature dictionary a run accumulates, ignoring failures: the
functional content of the loop on lines 30-45 when no open error
aborts it. -/
def foldFeatures (d : Dict) : List (Str × FileContent) → Dict
  | [] => d
  | f :: rest =>
      foldFeatures
        (match f.2 with
         | FileContent.parsed recs => (insertRecords d recs).1
         | _ => d) rest

/-! ## Characterization of the file loop -/

lemma insertRecords_snd (recs : List RecordOutcome) :
    ∀ d : Dict, (insertRecords d recs).2 = recs.any isExtract := by
  induction recs with
  | nil => intro d; simp [insertRecords]
  | cons r rest ih =>
      intro d
      cases r with
      | extractError e => simp [insertRecords, isExtract]
      | record name bases => simp [insertRecords, isExtract, ih]

lemma runFiles_eq_ok (l : List (Str × FileContent)) :
    ∀ (d : Dict) (fl : List Str), (∀ f ∈ l, isOpenErr f.2 = false) →
    runFiles (d, fl) l =
      Except.ok (foldFeatures d l,
        fl ++ (l.filter (fun f => fileFails f.2)).map (fun f => f.1)) := by
  induction l with
  | nil => intro d fl _; simp [runFiles, foldFeatures]
  | cons f rest ih =>
      intro d fl h
      obtain ⟨path, c⟩ := f
      have hf : isOpenErr c = false := h (path, c) (List.mem_cons_self _ rest)
      have hrest : ∀ g ∈ rest, isOpenErr g.2 = false :=
        fun g hg => h g (List.mem_cons_of_mem _ hg)
      cases c with
      | openError => simp [isOpenErr] at hf
      | tryExc e =>
          show runFiles (d, fl ++ [path]) rest = _
          rw [ih d (fl ++ [path]) hrest]
          simp [foldFeatures, fileFails]
      | parsed recs =>
          rcases hir : insertRecords d recs with ⟨feats, b⟩
          have hb : b = recs.any isExtract := by
            have h2 := insertRecords_snd recs d
            rw [hir] at h2; exact h2
          have hstep : runFiles (d, fl) ((path, FileContent.parsed recs) :: rest)
              = runFiles (feats, if b then fl ++ [path] else fl) rest := by
            simp only [runFiles, processFile, hir]
            cases b <;> rfl
          rw [hstep]
          cases b with
          | true =>
              rw [if_pos rfl, ih feats (fl ++ [path]) hrest]
              simp [foldFeatures, hir, fileFails, ← hb]
          | false =>
              rw [if_neg (by simp), ih feats fl hrest]
              simp [foldFeatures, hir, fileFails, ← hb]

lemma runFiles_ok_inv (l : List (Str × FileContent)) :
    ∀ (d : Dict) (fl : List Str) (r : Dict × List Str),
    runFiles (d, fl) l = Except.ok r → ∀ f ∈ l, isOpenErr f.2 = false := by
  induction l with
  | nil => intro d fl r _ f hf; simp at hf
  | cons f rest ih =>
      intro d fl r hr g hg
      obtain ⟨path, c⟩ := f
      cases c with
      | openError =>
          simp only [runFiles, processFile] at hr
          exact Except.noConfusion hr
      | tryExc e =>
          replace hr : runFiles (d, fl ++ [path]) rest = Except.ok r := hr
          rcases List.mem_cons.mp hg with hg | hg
          · rw [hg]; rfl
          · exact ih _ _ _ hr g hg
      | parsed recs =>
          simp only [runFiles, processFile] at hr
          rcases hir : insertRecords d recs with ⟨feats, b⟩
          rw [hir] at hr
          rcases List.mem_cons.mp hg with hg | hg
          · rw [hg]; rfl
          · cases b with
            | true => exact ih _ _ _ hr g hg
            | false => exact ih _ _ _ hr g hg

lemma runFiles_ok_char (l : List (Str × FileContent)) (d : Dict)
    (fl : List Str) (r : Dict × List Str)
    (h : runFiles (d, fl) l = Except.ok r) :
    r = (foldFeatures d l,
      fl ++ (l.filter (fun f => fileFails f.2)).map (fun f => f.1)) := by
  have hopen := runFiles_ok_inv l d fl r h
  rw [runFiles_eq_ok l d fl hopen] at h
  exact (Except.ok.injEq _ _).mp h.symm

lemma runFiles_openErr (l1 : List (Str × FileContent)) :
    ∀ (p : Str) (l2 : List (Str × FileContent)) (d : Dict) (fl : List Str),
    (∀ f ∈ l1, isOpenErr f.2 = false) →
    runFiles (d, fl) (l1 ++ (p, FileContent.openError) :: l2) =
      Except.error (RunError.inputOpen p) := by
  induction l1 with
  | nil => intro p l2 d fl _; simp [runFiles, processFile]
  | cons f rest ih =>
      intro p l2 d fl h
      obtain ⟨path, c⟩ := f
      have hf : isOpenErr c = false := h (path, c) (List.mem_cons_self _ rest)
      have hrest : ∀ g ∈ rest, isOpenErr g.2 = false :=
        fun g hg => h g (List.mem_cons_of_mem _ hg)
      cases c with
      | openError => simp [isOpenErr] at hf
      | tryExc e =>
          show runFiles (d, fl ++ [path]) (rest ++ (p, FileContent.openError) :: l2) = _
          exact ih p l2 d (fl ++ [path]) hrest
      | parsed recs =>
          rcases hir : insertRecords d recs with ⟨feats, b⟩
          rw [List.cons_append]
          simp only [runFiles, processFile, hir]
          cases b with
          | true => exact ih p l2 feats (fl ++ [path]) hrest
          | false => exact ih p l2 feats fl hrest

lemma foldFeatures_append (l1 l2 : List (Str × FileContent)) :
    ∀ d : Dict, foldFeatures d (l1 ++ l2) = foldFeatures (foldFeatures d l1) l2 := by
  induction l1 with
  | nil => intro d; simp [foldFeatures]
  | cons f rest ih => intro d; rw [List.cons_append, foldFeatures, foldFeatures]; exact ih _

/-- `read_features` in terms of the loop characterization. -/
lemma read_features_ok_char (fs : List (Str × FileContent)) (m : Dict)
    (fl : List Str) (h : read_features fs = Except.ok (m, fl)) :
    m = foldFeatures [] (fs.filter (fun f => keepFile f.1)) ∧
      fl = failurePaths fs ∧
      ∀ f ∈ fs.filter (fun f => keepFile f.1), isOpenErr f.2 = false := by
  have hc := runFiles_ok_char (fs.filter (fun f => keepFile f.1)) [] [] (m, fl) h
  have hinv := runFiles_ok_inv (fs.filter (fun f => keepFile f.1)) [] [] (m, fl) h
  refine ⟨?_, ?_, hinv⟩
  · exact congrArg Prod.fst hc
  · have := congrArg Prod.snd hc
    simpa [failurePaths] using this

/-! ## Where dictionary entries come from -/

lemma dictInsert_mem (m : Dict) (k v : Str) (kv : Str × Str)
    (h : kv ∈ dictInsert m k v) : kv ∈ m ∨ kv = (k, v) := by
  unfold dictInsert at h
  by_cases hany : m.any (fun p => p.1 = k)
  · rw [if_pos hany] at h
    rcases List.mem_map.mp h with ⟨p, hp, hpe⟩
    by_cases hk : p.1 = k
    · rw [if_pos hk] at hpe; exact Or.inr hpe.symm
    · rw [if_neg hk] at hpe; exact Or.inl (hpe ▸ hp)
  · rw [if_neg hany] at h
    rcases List.mem_append.mp h with h | h
    · exact Or.inl h
    · exact Or.inr (List.mem_singleton.mp h)

lemma insertRecords_mem (recs : List RecordOutcome) :
    ∀ (d : Dict) (kv : Str × Str), kv ∈ (insertRecords d recs).1 →
    kv ∈ d ∨ ∃ raw s, RecordOutcome.record raw s ∈ recs ∧
      kv.1 = pyStrip raw ∧ kv.2 = s ∧ s.length > 1 := by
  induction recs with
  | nil => intro d kv h; exact Or.inl h
  | cons r rest ih =>
      intro d kv h
      cases r with
      | extractError e => exact Or.inl h
      | record name bases =>
          rw [insertRecords] at h
          rcases ih _ kv h with hd | ⟨raw, s, hmem, h1, h2, h3⟩
          · by_cases hlen : bases.length > 1
            · rw [if_pos hlen] at hd
              rcases dictInsert_mem _ _ _ _ hd with hd | hd
              · exact Or.inl hd
              · refine Or.inr ⟨name, bases, List.mem_cons_self _ _, ?_, ?_, hlen⟩
                · rw [hd]
                · rw [hd]
            · rw [if_neg hlen] at hd; exact Or.inl hd
          · exact Or.inr ⟨raw, s, List.mem_cons_of_mem _ hmem, h1, h2, h3⟩

lemma foldFeatures_mem (l : List (Str × FileContent)) :
    ∀ (d : Dict) (kv : Str × Str), kv ∈ foldFeatures d l →
    kv ∈ d ∨ ∃ f ∈ l, ∃ recs raw s, f.2 = FileContent.parsed recs ∧
      RecordOutcome.record raw s ∈ recs ∧
      kv.1 = pyStrip raw ∧ kv.2 = s ∧ s.length > 1 := by
  induction l with
  | nil => intro d kv h; exact Or.inl h
  | cons f rest ih =>
      intro d kv h
      rw [foldFeatures] at h
      rcases ih _ kv h with hd | ⟨g, hg, recs, raw, s, hrec⟩
      · cases hc : f.2 with
        | openError => rw [hc] at hd; exact Or.inl hd
        | tryExc e => rw [hc] at hd; exact Or.inl hd
        | parsed recs =>
            rw [hc] at hd
            rcases insertRecords_mem recs d kv hd with hd | ⟨raw, s, hmem, h1, h2, h3⟩
            · exact Or.inl hd
            · exact Or.inr ⟨f, List.mem_cons_self _ _, recs, raw, s, hc, hmem, h1, h2, h3⟩
      · exact Or.inr ⟨g, List.mem_cons_of_mem _ hg, recs, raw, s, hrec⟩

/-! ## Properties of `pyStrip` -/

lemma mem_dropWhile_of_neg {p : Char → Bool} {c : Char} (hc : p c = false) :
    ∀ l : Str, c ∈ l → c ∈ l.dropWhile p := by
  intro l
  induction l with
  | nil => intro h; exact absurd h (List.not_mem_nil c)
  | cons a t ih =>
      intro h
      by_cases ha : p a
      · rw [List.dropWhile_cons_of_pos ha]
        rcases List.mem_cons.mp h with h | h
        · rw [h] at hc; rw [hc] at ha; exact absurd ha (by simp)
        · exact ih h
      · rw [List.dropWhile_cons_of_neg ha]; exact h

lemma dropWhile_append_all {p : Char → Bool} (w : Str)
    (hw : ∀ c ∈ w, p c = true) (l : Str) :
    List.dropWhile p (w ++ l) = List.dropWhile p l := by
  induction w with
  | nil => simp
  | cons a t ih =>
      rw [List.cons_append,
        List.dropWhile_cons_of_pos (hw a (List.mem_cons_self _ _))]
      exact ih (fun c hc => hw c (List.mem_cons_of_mem _ hc))

lemma dropWhile_append_of_ne_nil {p : Char → Bool} (a : Str)
    (ha : List.dropWhile p a ≠ []) (b : Str) :
    List.dropWhile p (a ++ b) = List.dropWhile p a ++ b := by
  induction a with
  | nil => exact absurd rfl ha
  | cons x t ih =>
      by_cases hx : p x
      · rw [List.dropWhile_cons_of_pos hx] at ha ⊢
        rw [List.cons_append, List.dropWhile_cons_of_pos hx]
        exact ih ha
      · rw [List.cons_append, List.dropWhile_cons_of_neg hx,
          List.dropWhile_cons_of_neg hx, List.cons_append]

/-- A string consisting of stripped whitespace only strips to nothing. -/
lemma pyStrip_all_space (s : Str) (hs : ∀ c ∈ s, isPySpace c = true) :
    pyStrip s = [] := by
  unfold pyStrip
  have h1 : s.dropWhile isPySpace = [] :=
    List.dropWhile_eq_nil_iff.mpr (fun c hc => hs c hc)
  rw [h1]
  simp

/-- A string containing a non-whitespace character strips to a
non-empty string. -/
lemma pyStrip_ne_nil (s : Str) (c : Char) (hc : c ∈ s)
    (hcs : isPySpace c = false) : pyStrip s ≠ [] := by
  unfold pyStrip
  intro h
  have h1 : c ∈ s.dropWhile isPySpace := mem_dropWhile_of_neg hcs s hc
  have h2 : c ∈ (s.dropWhile isPySpace).reverse := List.mem_reverse.mpr h1
  have h3 : c ∈ ((s.dropWhile isPySpace).reverse).dropWhile isPySpace :=
    mem_dropWhile_of_neg hcs _ h2
  have h4 : ((s.dropWhile isPySpace).reverse).dropWhile isPySpace = [] :=
    List.reverse_eq_nil_iff.mp h
  rw [h4] at h3
  exact absurd h3 (List.not_mem_nil c)

/-- Stripping ignores surrounding whitespace. -/
lemma pyStrip_sandwich (w1 n w2 : Str)
    (h1 : ∀ c ∈ w1, isPySpace c = true) (h2 : ∀ c ∈ w2, isPySpace c = true) :
    pyStrip (w1 ++ n ++ w2) = pyStrip n := by
  by_cases hn : ∀ c ∈ n, isPySpace c = true
  · rw [pyStrip_all_space n hn]
    apply pyStrip_all_space
    intro c hc
    rcases List.mem_append.mp hc with hc | hc
    · rcases List.mem_append.mp hc with hc | hc
      · exact h1 c hc
      · exact hn c hc
    · exact h2 c hc
  · push_neg at hn
    rcases hn with ⟨c, hc, hcs⟩
    have hcs' : isPySpace c = false := by
      cases h : isPySpace c with
      | true => exact absurd h hcs
      | false => rfl
    have hd : List.dropWhile isPySpace n ≠ [] := by
      intro h
      have h3 := mem_dropWhile_of_neg hcs' n hc
      rw [h] at h3
      exact absurd h3 (List.not_mem_nil c)
    unfold pyStrip
    rw [List.append_assoc, dropWhile_append_all w1 h1 (n ++ w2),
      dropWhile_append_of_ne_nil n hd w2,
      List.reverse_append,
      dropWhile_append_all w2.reverse
        (fun x hx => h2 x (List.mem_reverse.mp hx))]

lemma splitOnCharAux_no_sep (c : Char) (l : Str) (h : c ∉ l) :
    splitOnCharAux c l = (l, []) := by
  induction l with
  | nil => rfl
  | cons a t ih =>
      have ha : ¬a = c := fun he => h (he ▸ List.mem_cons_self a t)
      rw [splitOnCharAux]
      simp only [if_neg ha]
      rw [ih (fun hm => h (List.mem_cons_of_mem a hm))]

lemma splitOnChar_no_sep (c : Char) (l : Str) (h : c ∉ l) :
    splitOnChar c l = [l] := by
  rw [splitOnChar, splitOnCharAux_no_sep c l h]

lemma splitOnCharAux_sep (c : Char) (l1 l2 : Str) (h : c ∉ l1) :
    splitOnCharAux c (l1 ++ c :: l2) =
      (l1, (splitOnCharAux c l2).1 :: (splitOnCharAux c l2).2) := by
  induction l1 with
  | nil => rw [List.nil_append, splitOnCharAux]; simp
  | cons a t ih =>
      have ha : ¬a = c := fun he => h (he ▸ List.mem_cons_self a t)
      rw [List.cons_append, splitOnCharAux]
      simp only [if_neg ha]
      rw [ih (fun hm => h (List.mem_cons_of_mem a hm))]

lemma splitOnChar_sep (c : Char) (l1 l2 : Str) (h : c ∉ l1) :
    splitOnChar c (l1 ++ c :: l2) = l1 :: splitOnChar c l2 := by
  rw [splitOnChar, splitOnCharAux_sep c l1 l2 h, splitOnChar]

/-- Splitting the writer's text on newline yields the line bodies
followed by one empty chunk after the final newline. -/
lemma splitOnChar_tsvOutput (m : Dict)
    (h : ∀ p ∈ m, ('\n' : Char) ∉ p.1 ∧ ('\n' : Char) ∉ p.2) :
    splitOnChar '\n' (tsvOutput m) =
      (m.map (fun p => p.1 ++ '\t' :: p.2)) ++ [[]] := by
  induction m with
  | nil =>
      rw [tsvOutput]
      simp [splitOnChar, splitOnCharAux]
  | cons p rest ih =>
      have hp := h p (List.mem_cons_self p rest)
      have hbody : ('\n' : Char) ∉ p.1 ++ '\t' :: p.2 := by
        intro hm
        rcases List.mem_append.mp hm with hm | hm
        · exact hp.1 hm
        · rcases List.mem_cons.mp hm with hm | hm
          · exact absurd hm.symm (by decide)
          · exact hp.2 hm
      have hout : tsvOutput (p :: rest) =
          (p.1 ++ '\t' :: p.2) ++ '\n' :: tsvOutput rest := by
        rw [tsvOutput, List.map_cons, List.flatten_cons, tsvLine, tsvOutput]
        simp
      rw [hout, splitOnChar_sep '\n' _ _ hbody,
        ih (fun q hq => h q (List.mem_cons_of_mem p hq)), List.map_cons,
        List.cons_append]

lemma parseLine_tsv (p : Str × Str) (ht1 : ('\t' : Char) ∉ p.1)
    (ht2 : ('\t' : Char) ∉ p.2) :
    parseLine (p.1 ++ '\t' :: p.2) = some p := by
  rw [parseLine, splitOnChar_sep '\t' p.1 p.2 ht1, splitOnChar_no_sep '\t' p.2 ht2]

/-- Entries whose fields avoid tab and newline round-trip through the
writer and the re-split. -/
lemma parseTsv_tsvOutput (m : Dict)
    (h : ∀ p ∈ m, ('\t' : Char) ∉ p.1 ∧ ('\n' : Char) ∉ p.1 ∧
      ('\t' : Char) ∉ p.2 ∧ ('\n' : Char) ∉ p.2) :
    parseTsv (tsvOutput m) = some m := by
  rw [parseTsv, splitOnChar_tsvOutput m
    (fun p hp => ⟨(h p hp).2.1, (h p hp).2.2.2⟩)]
  rw [List.filter_append]
  have hone : List.filter (fun ln => !ln.isEmpty) [([] : Str)] = [] := by rfl
  rw [hone, List.append_nil]
  have hkeep : List.filter (fun ln => !ln.isEmpty)
      (m.map (fun p => p.1 ++ '\t' :: p.2)) = m.map (fun p => p.1 ++ '\t' :: p.2) := by
    apply List.filter_eq_self.mpr
    intro b hb
    rcases List.mem_map.mp hb with ⟨p, _, hpe⟩
    have hne : b ≠ [] := by
      rw [← hpe]
      exact List.append_ne_nil_of_right_ne_nil p.1 (List.cons_ne_nil _ _)
    simp [List.isEmpty_iff, hne]
  rw [hkeep]
  clear hone hkeep
  induction m with
  | nil => rfl
  | cons p rest ih =>
      have hp := h p (List.mem_cons_self p rest)
      rw [List.map_cons, List.mapM_cons, parseLine_tsv p hp.1 hp.2.2.1,
        ih (fun q hq => h q (List.mem_cons_of_mem p hq))]
      rfl

lemma foldFeatures_tryExc (d : Dict) (p : Str) (e : PyExc)
    (l : List (Str × FileContent)) :
    foldFeatures d ((p, FileContent.tryExc e) :: l) = foldFeatures d l := rfl

lemma filter_keep_middle (pre post : List (Str × FileContent))
    (g : Str × FileContent) (hg : keepFile g.1 = true) :
    (pre ++ g :: post).filter (fun f => keepFile f.1) =
      pre.filter (fun f => keepFile f.1) ++ g ::
        post.filter (fun f => keepFile f.1) := by
  rw [List.filter_append, List.filter_cons_of_pos (by exact hg)]

lemma open_filtered (l : List (Str × FileContent))
    (h : ∀ f ∈ l, isOpenErr f.2 = false) :
    ∀ f ∈ l.filter (fun f => keepFile f.1), isOpenErr f.2 = false :=
  fun f hf => h f (List.mem_of_mem_filter hf)

lemma open_filtered_middle (pre post : List (Str × FileContent))
    (g : Str × FileContent) (hg : isOpenErr g.2 = false)
    (h : ∀ f ∈ pre ++ post, isOpenErr f.2 = false) :
    ∀ f ∈ pre.filter (fun f => keepFile f.1) ++ g ::
        post.filter (fun f => keepFile f.1), isOpenErr f.2 = false := by
  intro f hf
  rcases List.mem_append.mp hf with hf | hf
  · exact h f (List.mem_append_left _ (List.mem_of_mem_filter hf))
  · rcases List.mem_cons.mp hf with hf | hf
    · rw [hf]; exact hg
    · exact h f (List.mem_append_right _ (List.mem_of_mem_filter hf))

/-- A file whose open succeeds and whose decode or extraction raises is
skipped: the run stays successful, the path lands in `failures` between
the failures of the earlier and the later files, and the later files
are still processed. -/
lemma caught_run (pre post : List (Str × FileContent)) (p : Str)
    (content : FileContent) (hp : keepFile p = true)
    (hfail : fileFails content = true)
    (hopen : ∀ f ∈ pre ++ post, isOpenErr f.2 = false) :
    ∃ m : Dict, read_features (pre ++ (p, content) :: post) =
      Except.ok (m, failurePaths pre ++ p :: failurePaths post) := by
  have hcontent : isOpenErr content = false := by
    cases content with
    | openError => simp [fileFails] at hfail
    | tryExc e => rfl
    | parsed recs => rfl
  refine ⟨foldFeatures [] (pre.filter (fun f => keepFile f.1) ++ (p, content) ::
    post.filter (fun f => keepFile f.1)), ?_⟩
  rw [read_features, filter_keep_middle pre post (p, content) hp,
    runFiles_eq_ok _ [] []
      (open_filtered_middle pre post (p, content) hcontent hopen),
    List.nil_append, List.filter_append, List.filter_cons_of_pos (by exact hfail),
    List.map_append, List.map_cons]
  rfl

/-! ## The claims -/

/-- Claim C2: every sequence stored in the mapping returned by
`read_features` has length strictly greater than 1: records whose
sequence has length at most 1 are never inserted. -/
theorem C2_short_sequences_excluded (fs : List (Str × FileContent))
    (m : Dict) (fl : List Str) (h : read_features fs = Except.ok (m, fl)) :
    ∀ kv ∈ m, kv.2.length > 1 := by
  intro kv hkv
  obtain ⟨hm, _, _⟩ := read_features_ok_char fs m fl h
  rw [hm] at hkv
  rcases foldFeatures_mem _ [] kv hkv with hd | ⟨_, _, _, _, s, _, _, _, h2, h3⟩
  · exact absurd hd (List.not_mem_nil kv)
  · rw [h2]; exact h3

/-- Witness for C2: a run with one two-base feature and one single-base
feature retains only the former, whose length exceeds 1. -/
theorem C2_short_sequences_excluded_witness :
    ("AT".data).length > 1 :=
  C2_short_sequences_excluded
    [("./a.dna".data, FileContent.parsed
        [RecordOutcome.record ("g1".data) "AT".data,
         RecordOutcome.record ("g2".data) "A".data])]
    [("g1".data, "AT".data)] [] (by rfl)
    ("g1".data, "AT".data) (by decide)

/-- Claim C6: the file enumerator keeps order (a finite, restartable list)
and contains exactly the walked regular files whose path does not start
with the system-metadata prefix `./.DS` or the output prefix
`./features`. -/
theorem C6_enumerator_filters_reserved (walked : List Str) :
    (featFilter walked).Sublist walked ∧
      ∀ p : Str, p ∈ featFilter walked ↔
        p ∈ walked ∧ ¬(("./.DS".data).isPrefixOf p = true ∨
          ("./features".data).isPrefixOf p = true) := by
  constructor
  · exact List.filter_sublist walked
  · intro p
    rw [featFilter, List.mem_filter, keepFile]
    constructor
    · intro ⟨h1, h2⟩
      refine ⟨h1, ?_⟩
      intro hor
      rcases hor with hpre | hpre <;> simp [hpre] at h2
    · intro ⟨h1, h2⟩
      refine ⟨h1, ?_⟩
      push_neg at h2
      simp [h2.1, h2.2]

/-- Claim C10: the `os.chdir` on line 19 moves the working directory to
`assets/snapgene` under the parent of the starting directory, the
script never changes it back (the run ends with that directory, which
always differs from the starting one), and the relative output name
`features.tsv` of line 56 resolves against the changed directory. -/
theorem C10_chdir_permanent (cwd : DirPath) :
    read_features_cwd cwd = cwd.dropLast ++ ["assets".data, "snapgene".data] ∧
      read_features_cwd cwd ≠ cwd ∧
      write_features_outPath cwd =
        (cwd.dropLast ++ ["assets".data, "snapgene".data]) ++ ["features.tsv".data] := by
  have heq : read_features_cwd cwd =
      cwd.dropLast ++ ["assets".data, "snapgene".data] := by
    rw [read_features_cwd, snapgeneRel]
    simp [chdirStep, List.append_assoc]
  refine ⟨heq, ?_, ?_⟩
  · intro hne
    rw [heq] at hne
    have hlen := congrArg List.length hne
    rw [List.length_append, List.length_dropLast] at hlen
    cases cwd with
    | nil => simp at hlen
    | cons a t => simp at hlen
  · rw [write_features_outPath, heq]

/-- Claim C4: for a mapping whose names and sequences avoid tab and newline,
re-splitting the writer's text on newline and then on tab recovers
exactly the (name, sequence) pairs of the mapping. -/
theorem C4_tsv_roundtrip (m : Dict)
    (h : ∀ p ∈ m, ('\t' : Char) ∉ p.1 ∧ ('\n' : Char) ∉ p.1 ∧
      ('\t' : Char) ∉ p.2 ∧ ('\n' : Char) ∉ p.2) :
    parseTsv (tsvOutput m) = some m :=
  parseTsv_tsvOutput m h

/-- Witness for C4: a concrete two-entry mapping round-trips. -/
theorem C4_tsv_roundtrip_witness :
    parseTsv (tsvOutput [("n1".data, "ATG".data), ("n2".data, "CC".data)]) =
      some [("n1".data, "ATG".data), ("n2".data, "CC".data)] :=
  C4_tsv_roundtrip [("n1".data, "ATG".data), ("n2".data, "CC".data)] (by decide)

/-- Counterexample to C7: a decoder record whose name is only whitespace
and whose sequence is retained is stored under the empty-string key, so
the final mapping does hold a feature under the empty name. -/
theorem C7_empty_key_counterexample :
    read_features [("./w.dna".data, FileContent.parsed
        [RecordOutcome.record ("  ".data) "ATG".data])] =
      Except.ok ([(([] : Str), "ATG".data)], []) ∧
    dictGet [(([] : Str), "ATG".data)] [] = some ("ATG".data) := by
  constructor
  · rfl
  · rfl

/-- Claim C7 amended: every key of the final mapping is non-empty provided
every decoded record name contains at least one character that
`strip()` keeps. -/
theorem C7_amended_nonempty_keys (fs : List (Str × FileContent))
    (m : Dict) (fl : List Str) (h : read_features fs = Except.ok (m, fl))
    (hnames : ∀ f ∈ fs, ∀ recs, f.2 = FileContent.parsed recs →
      ∀ raw s, RecordOutcome.record raw s ∈ recs →
        ∃ c ∈ raw, isPySpace c = false) :
    ∀ kv ∈ m, kv.1 ≠ ([] : Str) := by
  intro kv hkv
  obtain ⟨hm, _, _⟩ := read_features_ok_char fs m fl h
  rw [hm] at hkv
  rcases foldFeatures_mem _ [] kv hkv with hd | ⟨f, hf, recs, raw, s, hc, hrec, h1, _, _⟩
  · exact absurd hd (List.not_mem_nil kv)
  · rcases hnames f (List.mem_of_mem_filter hf) recs hc raw s hrec with ⟨c, hcm, hcs⟩
    rw [h1]
    exact pyStrip_ne_nil raw c hcm hcs

/-- Witness for the amended C7: a run whose only record name has visible
characters yields no empty key. -/
theorem C7_amended_nonempty_keys_witness :
    ("g".data : Str) ≠ ([] : Str) :=
  C7_amended_nonempty_keys
    [("./a.dna".data, FileContent.parsed
        [RecordOutcome.record ("g".data) "AT".data])]
    [("g".data, "AT".data)] [] (by rfl)
    (by
      intro f hf recs hrecs raw s hrs
      rw [List.mem_singleton] at hf
      subst hf
      simp only at hrecs
      cases hrecs
      rw [List.mem_singleton] at hrs
      injection hrs with h1 h2
      subst h1
      exact ⟨'g', by decide, by decide⟩)
    ("g".data, "AT".data) (by decide)

/-- Claim C9: every key stored by `read_features` is the whitespace-stripped
decoder name of one of the decoded records; stripping ignores
surrounding whitespace, so names differing only there collide on the
same key; and a whitespace-only name strips to the empty key. -/
theorem C9_names_normalized :
    (∀ (fs : List (Str × FileContent)) (m : Dict) (fl : List Str),
        read_features fs = Except.ok (m, fl) →
        ∀ kv ∈ m, ∃ f ∈ fs, ∃ recs raw s,
          f.2 = FileContent.parsed recs ∧
          RecordOutcome.record raw s ∈ recs ∧
          kv.1 = pyStrip raw ∧ kv.2 = s) ∧
    (∀ w1 n w2 : Str, (∀ c ∈ w1, isPySpace c = true) →
        (∀ c ∈ w2, isPySpace c = true) →
        pyStrip (w1 ++ n ++ w2) = pyStrip n) ∧
    (∀ s : Str, (∀ c ∈ s, isPySpace c = true) → pyStrip s = []) := by
  refine ⟨?_, ?_, ?_⟩
  · intro fs m fl h kv hkv
    obtain ⟨hm, _, _⟩ := read_features_ok_char fs m fl h
    rw [hm] at hkv
    rcases foldFeatures_mem _ [] kv hkv with hd | ⟨f, hf, recs, raw, s, hc, hrec, h1, h2, _⟩
    · exact absurd hd (List.not_mem_nil kv)
    · exact ⟨f, List.mem_of_mem_filter hf, recs, raw, s, hc, hrec, h1, h2⟩
  · intro w1 n w2 h1 h2
    exact pyStrip_sandwich w1 n w2 h1 h2
  · intro s hs
    exact pyStrip_all_space s hs

/-- Witness for C9: surrounding spaces do not change the key, and a
space-only name strips to the empty key. -/
theorem C9_names_normalized_witness :
    pyStrip (" g ".data) = pyStrip ("g".data) ∧ pyStrip ("  ".data) = [] := by
  constructor
  · have h := C9_names_normalized.2.1 [' '] "g".data [' '] (by decide) (by decide)
    exact h
  · exact C9_names_normalized.2.2 ("  ".data) (by decide)

/-- Claim C1: when a file's decode raises (any decode exception `e`), its
path is appended to the failure list between the failures of the
earlier and the later files, the final mapping is exactly the mapping
of the run without that file (no records from it appear), and the later
files are processed unchanged — no short-circuit, no retry, no
re-raise. -/
theorem C1_decode_failure_isolated (pre post : List (Str × FileContent))
    (p : Str) (e : PyExc) (hp : keepFile p = true)
    (hopen : ∀ f ∈ pre ++ post, isOpenErr f.2 = false) :
    ∃ m : Dict,
      read_features (pre ++ (p, FileContent.tryExc e) :: post) =
        Except.ok (m, failurePaths pre ++ p :: failurePaths post) ∧
      read_features (pre ++ post) =
        Except.ok (m, failurePaths pre ++ failurePaths post) := by
  refine ⟨foldFeatures [] ((pre ++ post).filter (fun f => keepFile f.1)), ?_, ?_⟩
  · have hfeat : foldFeatures ([] : Dict)
        (pre.filter (fun f => keepFile f.1) ++ (p, FileContent.tryExc e) ::
          post.filter (fun f => keepFile f.1)) =
        foldFeatures [] ((pre ++ post).filter (fun f => keepFile f.1)) := by
      rw [List.filter_append, foldFeatures_append, foldFeatures_append,
        foldFeatures_tryExc]
    have hfl2 : (List.filter (fun f => fileFails f.2)
        (pre.filter (fun f => keepFile f.1) ++ (p, FileContent.tryExc e) ::
          post.filter (fun f => keepFile f.1))).map (fun f => f.1) =
        failurePaths pre ++ p :: failurePaths post := by
      rw [List.filter_append, List.filter_cons_of_pos (by exact rfl),
        List.map_append, List.map_cons]
      rfl
    rw [read_features, filter_keep_middle pre post (p, FileContent.tryExc e) hp,
      runFiles_eq_ok _ [] []
        (open_filtered_middle pre post (p, FileContent.tryExc e) rfl hopen),
      List.nil_append, hfeat, hfl2]
  · have hfl : (((pre ++ post).filter (fun f => keepFile f.1)).filter
        (fun f => fileFails f.2)).map (fun f => f.1) =
        failurePaths pre ++ failurePaths post := by
      rw [List.filter_append, List.filter_append, List.map_append]
      rfl
    rw [read_features, runFiles_eq_ok _ [] [] (open_filtered _ hopen),
      List.nil_append, hfl]

/-- Witness for C1: a good file followed by a failing file yields the good
file's mapping and the failing file's path in the failure list. -/
theorem C1_decode_failure_isolated_witness :
    read_features
      [("./a.dna".data, FileContent.parsed
          [RecordOutcome.record ("g".data) "AT".data]),
       ("./b.dna".data, FileContent.tryExc PyExc.decodeError)] =
      Except.ok ([("g".data, "AT".data)], ["./b.dna".data]) := by
  obtain ⟨m, h1, h2⟩ := C1_decode_failure_isolated
    [("./a.dna".data, FileContent.parsed
        [RecordOutcome.record ("g".data) "AT".data])] []
    "./b.dna".data PyExc.decodeError (by decide) (by decide)
  have hev : read_features
      ([("./a.dna".data, FileContent.parsed
          [RecordOutcome.record ("g".data) "AT".data])] ++
        ([] : List (Str × FileContent))) =
      Except.ok ([("g".data, "AT".data)],
        failurePaths [("./a.dna".data, FileContent.parsed
          [RecordOutcome.record ("g".data) "AT".data])] ++
        failurePaths ([] : List (Str × FileContent))) := by rfl
  have hm : m = [("g".data, "AT".data)] :=
    congrArg Prod.fst (Except.ok.inj (h2.symm.trans hev))
  rw [hm] at h1
  exact h1

/-- Claim C3: two enumerated files that define the same (stripped) feature
name with retained sequences produce a single entry for that name whose
value comes from the file processed last. -/
theorem C3_last_write_wins (p1 p2 n s1 s2 : Str)
    (hp1 : keepFile p1 = true) (hp2 : keepFile p2 = true)
    (hs1 : s1.length > 1) (hs2 : s2.length > 1) (_hne : s1 ≠ s2) :
    read_features
      [(p1, FileContent.parsed [RecordOutcome.record n s1]),
       (p2, FileContent.parsed [RecordOutcome.record n s2])] =
      Except.ok ([(pyStrip n, s2)], []) := by
  simp [read_features, runFiles, processFile, insertRecords, dictInsert,
    hp1, hp2, hs1, hs2]

/-- Witness for C3: the second file's sequence wins for a shared name. -/
theorem C3_last_write_wins_witness :
    read_features
      [("./f1.dna".data, FileContent.parsed
          [RecordOutcome.record (" prom ".data) "AAA".data]),
       ("./f2.dna".data, FileContent.parsed
          [RecordOutcome.record (" prom ".data) "CCC".data])] =
      Except.ok ([(pyStrip (" prom ".data), "CCC".data)], []) :=
  C3_last_write_wins ("./f1.dna".data) "./f2.dna".data (" prom ".data)
    "AAA".data ("CCC".data) (by decide) (by decide) (by decide) (by decide)
    (by decide)

/-- Counterexample to C5: an `IOError` raised while the decoder reads the
already-opened input file arises inside the bare `try`, so it is
handled — the run keeps going and the path is recorded in the failure
list, contrary to the claim that every input-file I/O error propagates
unrecorded. -/
theorem C5_read_ioerror_caught_counterexample :
    read_features [("./a.dna".data, FileContent.tryExc PyExc.ioError)] =
      Except.ok ([], ["./a.dna".data]) := by rfl

/-- Claim C5 amended: an `IOError` raised by `open(file, "rb")` propagates
and terminates the run with no failure recorded; an `IOError` raised in
the unguarded output phase of `write_features` propagates; but an
`IOError` raised while reading an input file inside the decoder is
caught like a decode error and the path is recorded. -/
theorem C5_amended_io_errors (pre post : List (Str × FileContent)) :
    (∀ p : Str, keepFile p = true →
        (∀ f ∈ pre, isOpenErr f.2 = false) →
        read_features (pre ++ (p, FileContent.openError) :: post) =
          Except.error (RunError.inputOpen p)) ∧
    (∀ (fs : List (Str × FileContent)) (m : Dict) (fl : List Str),
        read_features fs = Except.ok (m, fl) →
        write_features fs true = Except.error RunError.outputWrite) ∧
    (∀ p : Str, keepFile p = true →
        (∀ f ∈ pre ++ post, isOpenErr f.2 = false) →
        ∃ m : Dict,
          read_features (pre ++ (p, FileContent.tryExc PyExc.ioError) :: post) =
            Except.ok (m, failurePaths pre ++ p :: failurePaths post)) := by
  refine ⟨?_, ?_, ?_⟩
  · intro p hp hpre
    rw [read_features, filter_keep_middle pre post (p, FileContent.openError) hp]
    exact runFiles_openErr _ p _ [] [] (open_filtered pre hpre)
  · intro fs m fl h
    simp [write_features, h]
  · intro p hp hopen
    exact caught_run pre post p (FileContent.tryExc PyExc.ioError) hp rfl hopen

/-- Witness for the amended C5: the three amended behaviours at concrete
inputs. -/
theorem C5_amended_io_errors_witness :
    read_features [("./o.dna".data, FileContent.openError)] =
      Except.error (RunError.inputOpen ("./o.dna".data)) ∧
    write_features [] true = Except.error RunError.outputWrite ∧
    read_features [("./r.dna".data, FileContent.tryExc PyExc.ioError)] =
      Except.ok ([], ["./r.dna".data]) := by
  obtain ⟨hA, hB, hC⟩ := C5_amended_io_errors [] []
  refine ⟨?_, ?_, ?_⟩
  · exact hA ("./o.dna".data) (by decide) (by simp)
  · exact hB [] [] [] (by rfl)
  · obtain ⟨m, hm⟩ := hC ("./r.dna".data) (by decide) (by simp)
    have hev : read_features
        (([] : List (Str × FileContent)) ++
          ("./r.dna".data, FileContent.tryExc PyExc.ioError) :: []) =
        Except.ok (([] : Dict),
          failurePaths ([] : List (Str × FileContent)) ++
            "./r.dna".data :: failurePaths ([] : List (Str × FileContent))) := by rfl
    have hmEq : m = [] := congrArg Prod.fst (Except.ok.inj (hm.symm.trans hev))
    rw [hmEq] at hm
    exact hm

/-- Claim C8: the bare `except:` on line 42 catches every exception raised
inside the `try` — a decode error of any class, an `IOError` during the
parser's read, or an exception raised while extracting a record's
fields — appending the path to the failure list and continuing with
the later files; no such exception escapes `read_features`. -/
theorem C8_bare_catch_all (pre post : List (Str × FileContent)) (p : Str)
    (content : FileContent) (hp : keepFile p = true)
    (hfail : fileFails content = true)
    (hopen : ∀ f ∈ pre ++ post, isOpenErr f.2 = false) :
    ∃ m : Dict, read_features (pre ++ (p, content) :: post) =
      Except.ok (m, failurePaths pre ++ p :: failurePaths post) :=
  caught_run pre post p content hp hfail hopen

/-- Witness for C8: an extraction error after one good record is caught:
the partial record stays, the path is recorded, and the run
succeeds. -/
theorem C8_bare_catch_all_witness :
    read_features
      [("./x.dna".data, FileContent.parsed
          [RecordOutcome.record ("a".data) "AAA".data,
           RecordOutcome.extractError PyExc.otherExc])] =
      Except.ok ([("a".data, "AAA".data)], ["./x.dna".data]) := by
  obtain ⟨m, h1⟩ := C8_bare_catch_all [] [] "./x.dna".data
    (FileContent.parsed
      [RecordOutcome.record ("a".data) "AAA".data,
       RecordOutcome.extractError PyExc.otherExc])
    (by decide) (by decide) (by simp)
  have hev : read_features
      (([] : List (Str × FileContent)) ++
        ("./x.dna".data, FileContent.parsed
          [RecordOutcome.record ("a".data) "AAA".data,
           RecordOutcome.extractError PyExc.otherExc]) :: []) =
      Except.ok ([("a".data, "AAA".data)],
        failurePaths ([] : List (Str × FileContent)) ++
          "./x.dna".data :: failurePaths ([] : List (Str × FileContent))) := by rfl
  have hmEq : m = [("a".data, "AAA".data)] :=
    congrArg Prod.fst (Except.ok.inj (h1.symm.trans hev))
  rw [hmEq] at h1
  exact h1

end Snapgene
